import Mathlib

/-!
Verification development for the ddex-proto detection / lossless round-trip core.

The definitions below are shallow embeddings of the Go sources:
  - `pkg/ddexgen/ddexgen.go` — in particular the code that `ddexgen` emits for
    every root message (`generateXMLMarshalingMethods`), for every enum
    (`generateEnumStringMethod` / `generateEnumParser`) and for the registry
    (`generateRegistryFunctions`: `GetRegisteredTypes`, `New`,
    `DetectMessageType`, ...).  The emitted code is a string literal inside
    `ddexgen.go`; the embeddings follow that emitted code line by line.
  - `testutil/xml.go` — the round-trip oracle (`DOMComparison`,
    `PerformRoundTripValidationFromData`, `CompareDOMTrees`, `normalizeValue`).

Modelling conventions:
  - Go strings are Lean `String`s; the Go standard-library string helpers used
    by the sources (`strings.HasPrefix`, `strings.HasSuffix`, `strings.Split`,
    `strings.TrimSpace`, `strings.Fields`, `strings.ReplaceAll`,
    `strings.ToUpper`, `strings.LastIndex`, `strings.TrimSuffix`,
    `strings.Index`) are re-implemented below on the character lists of those
    strings.  All strings appearing in the repository are ASCII, so the ASCII
    behaviour of `ToUpper` and of the whitespace class is the relevant one.
  - Go maps with string keys are association lists; `goMapSet` implements the
    overwrite-or-insert semantics of a Go map assignment.  Go's map iteration
    order is unspecified; the embeddings iterate in list order, which is one
    admissible resolution of that nondeterminism (none of the proved
    properties depend on the order).
  - Fallible Go functions returning `(T, error)` become `Except E T` or
    `Option T`.
-/

/-! ## Go standard-library string helpers (character-list implementations) -/

/-- Go `strings.HasPrefix p s` (here: `goHasPfx s p` — does `s` start with `p`). -/
def goHasPfx (s p : String) : Bool :=
  p.data.isPrefixOf s.data

/-- Go `strings.HasSuffix` — does `s` end with `p`. -/
def goHasSfx (s p : String) : Bool :=
  p.data.isSuffixOf s.data

/-- Go `strings.TrimSuffix s p`: drop a trailing `p` if present. -/
def goTrimSfx (s p : String) : String :=
  if goHasSfx s p then String.mk (s.data.take (s.data.length - p.data.length)) else s

/-- Go `strings.Index s sub ≥ 0` — does `s` contain `sub`. -/
def goContainsAux : List Char → List Char → Bool
  | _, [] => true
  | [], _ => false
  | c :: rest, pat => pat.isPrefixOf (c :: rest) || goContainsAux rest pat

/-- Go `strings.Contains s sub` (also `strings.Index s sub >= 0`). -/
def goContains (s sub : String) : Bool :=
  goContainsAux s.data sub.data

/-- Index of the last occurrence of `pat` in `s`, as Go `strings.LastIndex`
(`none` for Go's `-1`).  Indices are character indices; on the ASCII strings of
this repository they coincide with Go's byte indices. -/
def goLastIndex : List Char → List Char → Option Nat
  | [], pat => if pat.isEmpty then some 0 else none
  | c :: rest, pat =>
    match goLastIndex rest pat with
    | some i => some (i + 1)
    | none => if pat.isPrefixOf (c :: rest) then some 0 else none

/-- Go `strings.ToUpper` (ASCII fragment, which covers this repository). -/
def goToUpper (s : String) : String :=
  String.mk (s.data.map Char.toUpper)

/-- The white-space class of Go `unicode.IsSpace`, restricted to the code
points that occur in this repository's data (ASCII plus NEL and NBSP). -/
def goIsSpace (c : Char) : Bool :=
  c = ' ' || c = '\t' || c = '\n' || c = '\x0b' || c = '\x0c' || c = '\r'

/-- Go `strings.TrimSpace`. -/
def goTrimSpace (s : String) : String :=
  String.mk ((s.data.dropWhile goIsSpace).reverse.dropWhile goIsSpace |>.reverse)

/-- Go `strings.ReplaceAll s "\r\n" "\n"` (left-to-right, non-overlapping). -/
def goReplaceCRLF : List Char → List Char
  | [] => []
  | '\r' :: '\n' :: rest => '\n' :: goReplaceCRLF rest
  | c :: rest => c :: goReplaceCRLF rest

/-- Go `strings.Fields`: split around runs of white space, dropping empties. -/
def goFieldsAux (cur : List Char) (acc : List (List Char)) : List Char → List (List Char)
  | [] => if cur.isEmpty then acc.reverse else (cur.reverse :: acc).reverse
  | c :: rest =>
    if goIsSpace c then
      if cur.isEmpty then goFieldsAux [] acc rest
      else goFieldsAux [] (cur.reverse :: acc) rest
    else goFieldsAux (c :: cur) acc rest

/-- Go `strings.Fields` on a `String`. -/
def goFields (s : String) : List String :=
  (goFieldsAux [] [] s.data).map String.mk

/-- Go `strings.Join parts " "`. -/
def goJoinSpace : List String → String
  | [] => ""
  | [p] => p
  | p :: rest => p ++ " " ++ goJoinSpace rest

/-- Go `strings.Split s "/"` (single-character separator case). -/
def goSplitSlashAux (cur : List Char) : List Char → List String
  | [] => [String.mk cur.reverse]
  | c :: rest =>
    if c = '/' then String.mk cur.reverse :: goSplitSlashAux [] rest
    else goSplitSlashAux (c :: cur) rest

/-- Go `strings.Split s "/"`. -/
def goSplitSlash (s : String) : List String :=
  goSplitSlashAux [] s.data

/-- Go map assignment `m[k] = v` on an association-list model: overwrite the
existing entry for `k`, or append a new one. -/
def goMapSet {α : Type} (m : List (String × α)) (k : String) (v : α) : List (String × α) :=
  match m with
  | [] => [(k, v)]
  | (k', v') :: rest => if k' = k then (k, v) :: rest else (k', v') :: goMapSet rest k v

/-- Go map deletion `delete(m, k)` on the association-list model. -/
def goMapDel {α : Type} (m : List (String × α)) (k : String) : List (String × α) :=
  match m with
  | [] => []
  | (k', v') :: rest => if k' = k then rest else (k', v') :: goMapDel rest k

/-! ## XML attributes and the generated root-message decode capture

`xml.Attr` of Go `encoding/xml`: `Name.Space`, `Name.Local`, `Value`.
Go's decoder represents a prefixed namespace declaration `xmlns:p="u"` as
`{Space := "xmlns", Local := p}` and the unprefixed declaration `xmlns="u"`
as `{Space := "", Local := "xmlns"}`; other prefixed attributes such as
`xsi:schemaLocation` carry the resolved namespace URI in `Space`. -/

structure XmlAttr where
  space : String
  local_ : String
  value : String
deriving DecidableEq, Repr

/-- The XML-Schema-instance namespace URI (`NamespaceXSI` in the generated
packages). -/
def namespaceXSI : String := "http://www.w3.org/2001/XMLSchema-instance"

/-- One iteration of the attribute-capture loop in the generated
`UnmarshalXML` of a root message (`generateXMLMarshalingMethods`,
`ddexgen.go`): returns the `NamespaceAttrs` key/value stored for the
attribute, or `none` when the attribute is left to the typed-field decode. -/
def captureAttr (attr : XmlAttr) : Option (String × String) :=
  if attr.space = "xmlns" || attr.local_ = "xmlns" ||
      (attr.space = namespaceXSI && attr.local_ = "schemaLocation") then
    let key := attr.local_
    let key :=
      if attr.space = "xmlns" then "xmlns:" ++ attr.local_
      else if attr.space ≠ "" && attr.local_ ≠ "xmlns" then
        (if attr.space = namespaceXSI then "xsi:" ++ attr.local_ else key)
      else key
    some (key, attr.value)
  else none

/-- The whole capture loop of the generated `UnmarshalXML`: fold
`m.NamespaceAttrs[key] = attr.Value` over the start element's attributes. -/
def unmarshalCaptureAttrs (attrs : List XmlAttr) (m : List (String × String)) :
    List (String × String) :=
  attrs.foldl
    (fun acc attr =>
      match captureAttr attr with
      | some kv => goMapSet acc kv.1 kv.2
      | none => acc)
    m

/-- Whether a namespace-declaration attribute has a declared prefix, in Go's
`xml.Attr` representation: `xmlns:p="u"` surfaces with `Space = "xmlns"`,
while the unprefixed declaration `xmlns="u"` surfaces with `Space = ""`. -/
def hasDeclaredPfx (attr : XmlAttr) : Bool :=
  attr.space = "xmlns"

/-- The capture rule as the specification words it: a namespace declaration
(attribute whose namespace is the declaration namespace, or whose local name
is `xmlns`) is stored under `"xmlns:" ++ local` when it has a declared prefix
and under `"xmlns"` otherwise; an XML-Schema-instance `schemaLocation` is
stored under `"xsi:schemaLocation"`; nothing else is stored. -/
def specCaptureAttr (attr : XmlAttr) : Option (String × String) :=
  if attr.space = "xmlns" || attr.local_ = "xmlns" then
    some (if hasDeclaredPfx attr then "xmlns:" ++ attr.local_ else "xmlns", attr.value)
  else if attr.space = namespaceXSI && attr.local_ = "schemaLocation" then
    some ("xsi:schemaLocation", attr.value)
  else none

/-- The capture loop as the specification describes it. -/
def specCaptureAttrs (attrs : List XmlAttr) (m : List (String × String)) :
    List (String × String) :=
  attrs.foldl
    (fun acc attr =>
      match specCaptureAttr attr with
      | some kv => goMapSet acc kv.1 kv.2
      | none => acc)
    m

/-- Pointwise agreement of the generated capture rule with the specification's
capture rule. -/
theorem captureAttr_eq_spec (a : XmlAttr) : captureAttr a = specCaptureAttr a := by
  unfold captureAttr specCaptureAttr hasDeclaredPfx
  by_cases h1 : a.space = "xmlns" <;>
    by_cases h2 : a.local_ = "xmlns" <;>
      by_cases h3 : a.space = namespaceXSI <;>
        by_cases h4 : a.local_ = "schemaLocation" <;>
          by_cases h5 : a.space = "" <;>
            simp_all [namespaceXSI]

/-- C1: during decode of a root message, every attribute of the start element
is captured into `NamespaceAttrs` exactly as the specification's rule says:
namespace declarations (declaration namespace, or local name `xmlns`) go under
`"xmlns:" ++ local` when prefixed and under `"xmlns"` otherwise,
XML-Schema-instance `schemaLocation` goes under `"xsi:schemaLocation"`, and
nothing else is stored. -/
theorem c1_root_decode_captures_namespace_attrs :
    ∀ (attrs : List XmlAttr) (m : List (String × String)),
      unmarshalCaptureAttrs attrs m = specCaptureAttrs attrs m := by
  intro attrs m
  unfold unmarshalCaptureAttrs specCaptureAttrs
  have hstep :
      (fun (acc : List (String × String)) (attr : XmlAttr) =>
        match captureAttr attr with
        | some kv => goMapSet acc kv.1 kv.2
        | none => acc)
      = (fun (acc : List (String × String)) (attr : XmlAttr) =>
        match specCaptureAttr attr with
        | some kv => goMapSet acc kv.1 kv.2
        | none => acc) := by
    funext acc attr
    rw [captureAttr_eq_spec]
  rw [hstep]

/-! ## The generated root-message encode: suppressing duplicated attributes

From `generateXMLMarshalingMethods` (`ddexgen.go`): the generated `MarshalXML`
of a root message inspects every struct field's `xml:"..."` tag with
reflection, collects the attribute names of attribute-kind tags into the set
`existingAttrs`, and then appends to the outgoing start element exactly the
`NamespaceAttrs` entries whose key is not in that set. -/

/-- A struct field of a generated message: Go field name plus the content of
its `xml:"..."` struct tag. -/
structure GoField where
  name : String
  tag : String
deriving DecidableEq, Repr

/-- Attribute-kind `xml` tag, as the generated reflection loop classifies it:
non-empty, not `"-"`, ending in `",attr"`. -/
def isAttrKindTag (t : String) : Bool :=
  t ≠ "" && t ≠ "-" && goHasSfx t ",attr"

/-- The `existingAttrs` set computed by the generated `MarshalXML` (modelled
as the list of inserted keys): for every field whose tag is attribute-kind,
the tag's name part, kept when it contains a colon or is non-empty. -/
def existingAttrs (fields : List GoField) : List String :=
  fields.filterMap (fun f =>
    if f.tag ≠ "" && f.tag ≠ "-" then
      if goHasSfx f.tag ",attr" then
        let attrName := goTrimSfx f.tag ",attr"
        if goContains attrName ":" then some attrName
        else if attrName ≠ "" then some attrName
        else none
      else none
    else none)

/-- The `NamespaceAttrs` entries the generated `MarshalXML` appends to the
outgoing start element (in map iteration order, modelled as list order). -/
def marshalAppendedNSAttrs (fields : List GoField) (nsAttrs : List (String × String)) :
    List (String × String) :=
  nsAttrs.filter (fun kv => !(existingAttrs fields).contains kv.1)

/-- The attribute keys produced by the typed fields bound with an
attribute-kind tag, per Go `encoding/xml` semantics: the tag's name part, or
the Go field name when the tag's name part is empty (tag `",attr"`). -/
def typedAttrKeys (fields : List GoField) : List String :=
  fields.filterMap (fun f =>
    if isAttrKindTag f.tag then
      let nm := goTrimSfx f.tag ",attr"
      some (if nm = "" then f.name else nm)
    else none)

/-- Under the shape invariant of the generated struct tags (every
attribute-kind tag carries an explicit attribute name, which holds for all
tags `ddex-proto` injects), the reflection-computed `existingAttrs` set is
exactly the set of attribute keys the typed fields produce. -/
theorem existingAttrs_eq_typedAttrKeys (fields : List GoField)
    (h : ∀ f ∈ fields, isAttrKindTag f.tag → goTrimSfx f.tag ",attr" ≠ "") :
    existingAttrs fields = typedAttrKeys fields := by
  induction fields with
  | nil => rfl
  | cons f rest ih =>
    have hf := h f (by simp)
    have hrest : ∀ g ∈ rest, isAttrKindTag g.tag → goTrimSfx g.tag ",attr" ≠ "" := by
      intro g hg
      exact h g (by simp [hg])
    unfold existingAttrs typedAttrKeys
    unfold existingAttrs typedAttrKeys at ih
    rw [List.filterMap_cons, List.filterMap_cons, ih hrest]
    by_cases h1 : f.tag = "" <;>
      by_cases h2 : f.tag = "-" <;>
        by_cases h3 : goHasSfx f.tag ",attr" = true <;>
          simp_all [isAttrKindTag]

/-- C2: during encode of a root message, a `(key, value)` pair of
`NamespaceAttrs` is appended to the outgoing start element iff `key` is not
among the attribute keys produced by the typed attribute-kind fields; hence no
attribute key is emitted both by a typed field and from `NamespaceAttrs`. -/
theorem c2_marshal_suppresses_shadowed_ns_attrs
    (fields : List GoField) (nsAttrs : List (String × String))
    (h : ∀ f ∈ fields, isAttrKindTag f.tag → goTrimSfx f.tag ",attr" ≠ "") :
    (∀ k v, (k, v) ∈ marshalAppendedNSAttrs fields nsAttrs ↔
      (k, v) ∈ nsAttrs ∧ k ∉ typedAttrKeys fields) ∧
    (∀ k ∈ typedAttrKeys fields, ∀ v, (k, v) ∉ marshalAppendedNSAttrs fields nsAttrs) := by
  have hset := existingAttrs_eq_typedAttrKeys fields h
  constructor
  · intro k v
    unfold marshalAppendedNSAttrs
    rw [List.mem_filter, hset]
    simp [List.elem_iff]
  · intro k hk v hmem
    unfold marshalAppendedNSAttrs at hmem
    rw [List.mem_filter, hset] at hmem
    simp [List.elem_iff] at hmem
    exact hmem.2 hk

/-- Witness for C2 at a concrete message shape: one typed attribute field
`LanguageAndScriptCode` and a `NamespaceAttrs` map holding a namespace
declaration and an entry shadowed by the typed field. -/
theorem c2_marshal_suppresses_shadowed_ns_attrs_witness :
    (∀ f ∈ [GoField.mk "LanguageAndScriptCode" "LanguageAndScriptCode,attr",
            GoField.mk "SchemaLoc" "xsi:schemaLocation,attr"],
        isAttrKindTag f.tag → goTrimSfx f.tag ",attr" ≠ "") ∧
    (∀ k v, (k, v) ∈ marshalAppendedNSAttrs
        [GoField.mk "LanguageAndScriptCode" "LanguageAndScriptCode,attr",
         GoField.mk "SchemaLoc" "xsi:schemaLocation,attr"]
        [("xmlns:ernm", "http://ddex.net/xml/ern/432"),
         ("xsi:schemaLocation", "http://ddex.net/xml/ern/432 release.xsd")] ↔
      (k, v) ∈ [("xmlns:ernm", "http://ddex.net/xml/ern/432"),
                ("xsi:schemaLocation", "http://ddex.net/xml/ern/432 release.xsd")] ∧
      k ∉ typedAttrKeys
        [GoField.mk "LanguageAndScriptCode" "LanguageAndScriptCode,attr",
         GoField.mk "SchemaLoc" "xsi:schemaLocation,attr"]) := by
  refine ⟨by decide, ?_⟩
  exact (c2_marshal_suppresses_shadowed_ns_attrs _ _ (by decide)).1

/-! ## The generated registry (`registry.go` template in `ddexgen.go`)

`MessageTypeInfo` holds a `reflect.Type` handle, the namespace URI and the
root element name.  The type handle is modelled as an opaque numeric tag; the
registry map `messageRegistry` is a parameter (an association list from
`"family/version/RootMessage"` keys to `MessageTypeInfo`), since its literal
entries are produced at build time from the compiled-in schema packages. -/

structure MessageTypeInfo where
  typeTag : Nat
  namespace_ : String
  rootElement : String
deriving DecidableEq, Repr

/-- A registry: the contents of the generated `messageRegistry` map. -/
abbrev MessageRegistry : Type := List (String × MessageTypeInfo)

/-- A token of the XML stream as `DetectMessageType` consumes it: either a
start element (with Go `encoding/xml` name splitting and attribute list) or
any other token kind. -/
inductive XmlTok where
  | start (local_ : String) (space : String) (attrs : List XmlAttr) : XmlTok
  | other : XmlTok
deriving DecidableEq

/-- Error kinds of the registry functions, as the generated code's `fmt.Errorf`
messages distinguish them. -/
inductive RegistryError where
  /-- "failed to parse XML: ..." — no start element before EOF/parse error. -/
  | malformedXML : RegistryError
  /-- "unknown DDEX message type with root element '…' and namespace '…'". -/
  | unrecognizedDocument (rootElement namespace_ : String) : RegistryError
  /-- "unknown message type: family/version" (`New`). -/
  | notRegistered (messageType version : String) : RegistryError
deriving DecidableEq

/-- The registry-matching loop of `DetectMessageType`: the first entry whose
`RootElement` and `Namespace` match yields the triple split from its key,
provided the key splits into exactly three parts; other matches are skipped. -/
def detectMatch (entries : MessageRegistry) (rootElement namespace_ : String) :
    Option (String × String × String) :=
  match entries with
  | [] => none
  | (key, info) :: rest =>
    if info.rootElement = rootElement ∧ info.namespace_ = namespace_ then
      match goSplitSlash key with
      | [a, b, c] => some (a, b, c)
      | _ => detectMatch rest rootElement namespace_
    else detectMatch rest rootElement namespace_

/-- The namespace fallback of `DetectMessageType`: when the start element's
name carries no namespace, the first attribute whose local name is `xmlns` or
starts with `"xmlns:"` supplies it. -/
def detectNamespace (space : String) (attrs : List XmlAttr) : String :=
  if space = "" then
    match attrs.find? (fun a => a.local_ == "xmlns" || goHasPfx a.local_ "xmlns:") with
    | some a => a.value
    | none => ""
  else space

/-- `DetectMessageType` from the generated registry code: scan the token
stream to the first start element, resolve the namespace (with the `xmlns*`
attribute fallback), and match against the registry. -/
def DetectMessageType (entries : MessageRegistry) :
    List XmlTok → Except RegistryError (String × String × String)
  | [] => .error .malformedXML
  | .other :: rest => DetectMessageType entries rest
  | .start local_ space attrs :: _ =>
    let namespace_ := detectNamespace space attrs
    match detectMatch entries local_ namespace_ with
    | some triple => .ok triple
    | none => .error (.unrecognizedDocument local_ namespace_)

/-- `New` from the generated registry code: the first entry whose key has the
`"family/version/"` prefix yields a fresh instance of its type (modelled by
the entry's type tag). -/
def New (entries : MessageRegistry) (messageType version : String) :
    Except RegistryError Nat :=
  let pfx := messageType ++ "/" ++ version ++ "/"
  match entries.find? (fun e => goHasPfx e.1 pfx) with
  | some e => .ok e.2.typeTag
  | none => .error (.notRegistered messageType version)

/-- `detectMatch` finds the (unique) matching entry's triple. -/
theorem detectMatch_eq_some (entries : MessageRegistry)
    (key : String) (info : MessageTypeInfo) (f v r : String)
    (hmem : (key, info) ∈ entries)
    (hsplit : goSplitSlash key = [f, v, r])
    (hroot : info.rootElement = r)
    (hinj : ∀ k' i', (k', i') ∈ entries → i'.rootElement = r →
      i'.namespace_ = info.namespace_ → k' = key) :
    detectMatch entries r info.namespace_ = some (f, v, r) := by
  induction entries with
  | nil => simp at hmem
  | cons e rest ih =>
    obtain ⟨k₀, i₀⟩ := e
    unfold detectMatch
    by_cases hm : i₀.rootElement = r ∧ i₀.namespace_ = info.namespace_
    · have hk : k₀ = key := hinj k₀ i₀ (by simp) hm.1 hm.2
      rw [if_pos hm, hk, hsplit]
    · rw [if_neg hm]
      have hmem' : (key, info) ∈ rest := by
        rcases List.mem_cons.mp hmem with h | h
        · exfalso
          apply hm
          have h1 : k₀ = key := (Prod.mk.injEq _ _ _ _ ▸ h.symm).1
          have h2 : i₀ = info := (Prod.mk.injEq _ _ _ _ ▸ h.symm).2
          exact ⟨h2 ▸ hroot, h2 ▸ rfl⟩
        · exact h
      exact ih hmem' (fun k' i' hm' => hinj k' i' (List.mem_cons_of_mem _ hm'))

/-- C4: for every registered `(family, version, rootElementName)` triple (a
registry entry with key `family/version/root`), `DetectMessageType` on a
minimal document whose root element carries that local name and the entry's
namespace URI returns exactly that triple.  The coherence hypothesis says no
other entry claims the same `(rootElement, namespace)` pair, which holds of
the generated registry because the namespace determines family and version. -/
theorem c4_detect_classifies_registered_triple
    (entries : MessageRegistry) (key : String) (info : MessageTypeInfo)
    (f v r : String)
    (hmem : (key, info) ∈ entries)
    (hsplit : goSplitSlash key = [f, v, r])
    (hroot : info.rootElement = r)
    (hinj : ∀ k' i', (k', i') ∈ entries → i'.rootElement = r →
      i'.namespace_ = info.namespace_ → k' = key) :
    DetectMessageType entries [XmlTok.start r info.namespace_ []] =
      .ok (f, v, r) := by
  unfold DetectMessageType
  have hns : detectNamespace info.namespace_ [] = info.namespace_ := by
    unfold detectNamespace
    by_cases h : info.namespace_ = "" <;> simp [h]
  simp only [hns, detectMatch_eq_some entries key info f v r hmem hsplit hroot hinj]

/-- A sample registry shaped like the generated `messageRegistry` literal. -/
def sampleRegistry : MessageRegistry :=
  [("ern/432/NewReleaseMessage",
      ⟨0, "http://ddex.net/xml/ern/432", "NewReleaseMessage"⟩),
   ("ern/432/PurgeReleaseMessage",
      ⟨1, "http://ddex.net/xml/ern/432", "PurgeReleaseMessage"⟩),
   ("mead/11/MeadMessage",
      ⟨2, "http://ddex.net/xml/mead/11", "MeadMessage"⟩)]

/-- Witness for C4: the `ern/432/NewReleaseMessage` entry of the sample
registry is detected from its minimal synthetic document. -/
theorem c4_detect_classifies_registered_triple_witness :
    (("ern/432/NewReleaseMessage",
        (⟨0, "http://ddex.net/xml/ern/432", "NewReleaseMessage"⟩ : MessageTypeInfo))
      ∈ sampleRegistry) ∧
    DetectMessageType sampleRegistry
      [XmlTok.start "NewReleaseMessage" "http://ddex.net/xml/ern/432" []] =
      .ok ("ern", "432", "NewReleaseMessage") := by
  refine ⟨by decide, ?_⟩
  exact c4_detect_classifies_registered_triple sampleRegistry
    "ern/432/NewReleaseMessage" ⟨0, "http://ddex.net/xml/ern/432", "NewReleaseMessage"⟩
    "ern" "432" "NewReleaseMessage" (by decide) (by decide) (by decide)
    (by
      intro k' i' hmem' h1 h2
      simp only [sampleRegistry, List.mem_cons, List.not_mem_nil, or_false] at hmem'
      rcases hmem' with h | h | h <;> injection h with hk hi <;> subst hk <;> subst hi <;>
        first
          | rfl
          | (exfalso; revert h1; decide))

/-- When no registry entry matches, the matching loop yields nothing. -/
theorem detectMatch_eq_none (entries : MessageRegistry) (rootElement namespace_ : String)
    (h : ∀ e ∈ entries, ¬(e.2.rootElement = rootElement ∧ e.2.namespace_ = namespace_)) :
    detectMatch entries rootElement namespace_ = none := by
  induction entries with
  | nil => rfl
  | cons e rest ih =>
    unfold detectMatch
    rw [if_neg (h e (by simp))]
    exact ih (fun e' he' => h e' (List.mem_cons_of_mem _ he'))

/-- C5: a well-formed document whose root element name and (fallback-resolved)
namespace match no registry entry makes `DetectMessageType` fail with the
`UnrecognizedDocument` error carrying that root element name and namespace —
never a triple.  A well-formed token stream is some non-start tokens followed
by the first start element. -/
theorem c5_detect_rejects_unregistered
    (entries : MessageRegistry) (n : Nat) (local_ space : String)
    (attrs : List XmlAttr) (rest : List XmlTok)
    (h : ∀ e ∈ entries,
      ¬(e.2.rootElement = local_ ∧ e.2.namespace_ = detectNamespace space attrs)) :
    DetectMessageType entries
        (List.replicate n XmlTok.other ++ XmlTok.start local_ space attrs :: rest) =
      .error (.unrecognizedDocument local_ (detectNamespace space attrs)) := by
  induction n with
  | zero =>
    rw [List.replicate_zero, List.nil_append]
    unfold DetectMessageType
    simp only [detectMatch_eq_none entries local_ (detectNamespace space attrs) h]
  | succ k ih =>
    rw [List.replicate_succ, List.cons_append]
    unfold DetectMessageType
    exact ih

/-- Witness for C5: a document with an unknown root element and namespace is
rejected by the sample registry with the diagnostic error. -/
theorem c5_detect_rejects_unregistered_witness :
    (∀ e ∈ sampleRegistry,
      ¬(e.2.rootElement = "UnknownMessage" ∧
        e.2.namespace_ = detectNamespace "http://example.com/none" [])) ∧
    DetectMessageType sampleRegistry
        [XmlTok.other, XmlTok.start "UnknownMessage" "http://example.com/none" []] =
      .error (.unrecognizedDocument "UnknownMessage" "http://example.com/none") := by
  refine ⟨by decide, ?_⟩
  have h := c5_detect_rejects_unregistered sampleRegistry 1
    "UnknownMessage" "http://example.com/none" [] [] (by decide)
  have hns : detectNamespace "http://example.com/none" ([] : List XmlAttr) =
      "http://example.com/none" := by decide
  rw [hns] at h
  simpa using h

/-- C6: when no registry key has the `"family/version/"` prefix, `New` fails
with the `NotRegistered`-style error and returns no type handle. -/
theorem c6_new_fails_when_not_registered
    (entries : MessageRegistry) (messageType version : String)
    (h : ∀ e ∈ entries, goHasPfx e.1 (messageType ++ "/" ++ version ++ "/") = false) :
    New entries messageType version = .error (.notRegistered messageType version) := by
  unfold New
  have hf : List.find?
      (fun e => goHasPfx e.1 (messageType ++ "/" ++ version ++ "/")) entries = none :=
    List.find?_eq_none.mpr (fun e he => by simp [h e he])
  simp only [hf]

/-- Witness for C6, the specification's concrete scenario: `Lookup("ern",
"999")` on a registry with no `ern/999/…` key fails with `NotRegistered`. -/
theorem c6_new_fails_when_not_registered_witness :
    (∀ e ∈ sampleRegistry, goHasPfx e.1 ("ern" ++ "/" ++ "999" ++ "/") = false) ∧
    New sampleRegistry "ern" "999" = .error (.notRegistered "ern" "999") := by
  exact ⟨by decide, c6_new_fails_when_not_registered sampleRegistry "ern" "999" (by decide)⟩

/-! ## `GetRegisteredTypes`: a fresh copy of the registry map

The generated `GetRegisteredTypes` allocates a new map (`make`) and copies
every `messageRegistry` entry into it.  To express freshness, Go's heap of
maps is modelled explicitly: addresses are naturals, the process-wide registry
lives at `registryAddr`, and `make` allocates at the next free address.
Caller mutations are map writes and deletions aimed at the returned address. -/

structure RegistryHeap where
  heap : Nat → List (String × MessageTypeInfo)
  nextFree : Nat
  registryAddr : Nat

/-- `GetRegisteredTypes` from the generated registry code: allocate a fresh
map, copy `messageRegistry` into it entry by entry, and return its address. -/
def GetRegisteredTypes (st : RegistryHeap) : RegistryHeap × Nat :=
  let fresh := st.nextFree
  let result := (st.heap st.registryAddr).foldl (fun acc kv => goMapSet acc kv.1 kv.2) []
  ({ heap := fun a => if a = fresh then result else st.heap a,
     nextFree := fresh + 1,
     registryAddr := st.registryAddr }, fresh)

/-- A caller-side map mutation: `m[k] = v` or `delete(m, k)`. -/
inductive MapMut where
  | set (k : String) (v : MessageTypeInfo) : MapMut
  | del (k : String) : MapMut

/-- Apply one mutation to a map value. -/
def applyMut (m : List (String × MessageTypeInfo)) : MapMut → List (String × MessageTypeInfo)
  | .set k v => goMapSet m k v
  | .del k => goMapDel m k

/-- Apply a sequence of mutations to the map at address `addr`. -/
def applyMutsAt (st : RegistryHeap) (addr : Nat) (muts : List MapMut) : RegistryHeap :=
  muts.foldl
    (fun s mu =>
      { s with heap := fun a => if a = addr then applyMut (s.heap a) mu else s.heap a })
    st

/-- Inserting a fresh key into the association-list map appends it. -/
theorem goMapSet_eq_append {α : Type} (acc : List (String × α)) (k : String) (v : α)
    (h : k ∉ acc.map Prod.fst) : goMapSet acc k v = acc ++ [(k, v)] := by
  induction acc with
  | nil => rfl
  | cons e rest ih =>
    obtain ⟨k', v'⟩ := e
    simp only [List.map_cons, List.mem_cons] at h
    push_neg at h
    unfold goMapSet
    rw [if_neg (fun hk => h.1 hk.symm), ih h.2, List.cons_append]

/-- Copying a map with distinct keys entry by entry reproduces it. -/
theorem foldl_goMapSet_copy {α : Type} (l acc : List (String × α))
    (hnd : (l.map Prod.fst).Nodup)
    (hdisj : ∀ k ∈ l.map Prod.fst, k ∉ acc.map Prod.fst) :
    l.foldl (fun acc kv => goMapSet acc kv.1 kv.2) acc = acc ++ l := by
  induction l generalizing acc with
  | nil => simp
  | cons e rest ih =>
    obtain ⟨k, v⟩ := e
    simp only [List.map_cons, List.nodup_cons] at hnd
    rw [List.foldl_cons,
      goMapSet_eq_append acc k v (hdisj k (by simp))]
    rw [ih (acc ++ [(k, v)]) hnd.2]
    · simp
    · intro k' hk'
      simp only [List.map_append, List.mem_append, List.map_cons, List.map_nil,
        List.mem_singleton]
      push_neg
      refine ⟨hdisj k' (by simp [hk']), ?_⟩
      intro hkk
      exact hnd.1 (hkk ▸ hk')

/-- Mutations aimed at one address leave every other address untouched. -/
theorem applyMutsAt_frame (muts : List MapMut) (st : RegistryHeap) (addr a : Nat)
    (h : a ≠ addr) : (applyMutsAt st addr muts).heap a = st.heap a := by
  induction muts generalizing st with
  | nil => rfl
  | cons mu rest ih =>
    unfold applyMutsAt
    rw [List.foldl_cons]
    unfold applyMutsAt at ih
    rw [ih]
    simp [h]

/-- C10: `GetRegisteredTypes` hands back a freshly allocated map whose
contents equal the internal registry, and no sequence of caller mutations on
the returned map changes the internal registry.  The hypotheses say the
registry address is an already-allocated one and the registry's keys are
distinct (true of any Go map). -/
theorem c10_getRegisteredTypes_fresh_copy (st : RegistryHeap)
    (hv : st.registryAddr < st.nextFree)
    (hnd : ((st.heap st.registryAddr).map Prod.fst).Nodup) :
    ((GetRegisteredTypes st).1.heap (GetRegisteredTypes st).2 =
      st.heap st.registryAddr) ∧
    (∀ muts : List MapMut,
      (applyMutsAt (GetRegisteredTypes st).1 (GetRegisteredTypes st).2 muts).heap
          st.registryAddr =
        st.heap st.registryAddr) := by
  have hne : st.registryAddr ≠ st.nextFree := Nat.ne_of_lt hv
  constructor
  · unfold GetRegisteredTypes
    simp only [if_pos rfl]
    exact foldl_goMapSet_copy _ [] hnd (by simp)
  · intro muts
    have h2 : (GetRegisteredTypes st).2 = st.nextFree := rfl
    rw [h2, applyMutsAt_frame muts _ _ _ hne]
    unfold GetRegisteredTypes
    simp [hne]

/-- Witness for C10 on a concrete heap holding the sample registry, with a
mutation sequence that overwrites one entry and deletes another. -/
theorem c10_getRegisteredTypes_fresh_copy_witness :
    ((RegistryHeap.mk (fun a => if a = 0 then sampleRegistry else []) 1 0).registryAddr <
      (RegistryHeap.mk (fun a => if a = 0 then sampleRegistry else []) 1 0).nextFree) ∧
    (applyMutsAt
        (GetRegisteredTypes
          (RegistryHeap.mk (fun a => if a = 0 then sampleRegistry else []) 1 0)).1
        (GetRegisteredTypes
          (RegistryHeap.mk (fun a => if a = 0 then sampleRegistry else []) 1 0)).2
        [MapMut.del "ern/432/NewReleaseMessage",
         MapMut.set "mead/11/MeadMessage" ⟨7, "x", "y"⟩]).heap
      (RegistryHeap.mk (fun a => if a = 0 then sampleRegistry else []) 1 0).registryAddr =
      (RegistryHeap.mk (fun a => if a = 0 then sampleRegistry else []) 1 0).heap
        (RegistryHeap.mk (fun a => if a = 0 then sampleRegistry else []) 1 0).registryAddr := by
  refine ⟨by decide, ?_⟩
  exact (c10_getRegisteredTypes_fresh_copy _ (by decide) (by decide)).2 _

/-! ## Generated enum accessor and parser

From `generateEnumStringMethod` / `generateEnumParser` (`ddexgen.go`).  An
enum is its Go type name plus its constant names; a constant value is
identified with its (unique) Go constant name.  The generated parser returns
`EnumName(0), false` on failure, modelled as `(none, false)`; success
`(constant, true)` is `(some constant, true)`. -/

structure EnumInfo where
  name : String
  constants : List String
deriving DecidableEq, Repr

/-- The wire string the generator derives for one constant: skip
`*_UNSPECIFIED` sentinels, find the last occurrence of the uppercased enum
name followed by an underscore, and take the remainder when it is non-empty
and not `"UNSPECIFIED"`; otherwise no `case` is generated. -/
def enumCaseOf (enumName konst : String) : Option String :=
  if goHasSfx konst "_UNSPECIFIED" then none
  else
    let upperName := goToUpper enumName
    match goLastIndex konst.data (upperName ++ "_").data with
    | some idx =>
      let afterPfx := String.mk (konst.data.drop (idx + (upperName ++ "_").data.length))
      if afterPfx ≠ "" && afterPfx ≠ "UNSPECIFIED" then some afterPfx else none
    | none => none

/-- The `case` arms generated for an enum, in constant order. -/
def enumCases (e : EnumInfo) : List (String × String) :=
  e.constants.filterMap (fun k => (enumCaseOf e.name k).map (fun ap => (k, ap)))

/-- The generated `XMLString` accessor: a `switch` over the enum value with
one arm per generated case, defaulting to `""`. -/
def XMLString (e : EnumInfo) (c : String) : String :=
  match (enumCases e).find? (fun kv => kv.1 == c) with
  | some kv => kv.2
  | none => ""

/-- The generated `Parse<Enum>String`: uppercase the input, then a `switch`
over the generated wire strings, defaulting to `(EnumName(0), false)`. -/
def ParseEnumString (e : EnumInfo) (s : String) : Option String × Bool :=
  match (enumCases e).find? (fun kv => kv.2 == goToUpper s) with
  | some kv => (some kv.1, true)
  | none => (none, false)

/-- An enum shaped like a protobuf enum with a multi-word name: the generated
prefix-stripping pattern `"USETYPE_"` never occurs in
`"UseType_USE_TYPE_STREAM"`, so no case arm is generated for it. -/
def useTypeEnum : EnumInfo :=
  ⟨"UseType", ["UseType_USE_TYPE_UNSPECIFIED", "UseType_USE_TYPE_STREAM"]⟩

/-- An enum with a single-word name, for which the generated pattern works. -/
def genderEnum : EnumInfo :=
  ⟨"Gender", ["Gender_GENDER_UNSPECIFIED", "Gender_GENDER_MALE"]⟩

/-- Counterexample to C7 as stated.  First conjunct: for the multi-word enum
name `UseType`, the non-sentinel constant `UseType_USE_TYPE_STREAM` gets no
generated case (the accessor returns `""`), so `Parse(Accessor(c))` is the
failure value, not `(c, true)`.  Second conjunct: the accessor of
`genderEnum` never produces the string `"male"`, yet the case-insensitive
parser accepts it, so strings not produced by the accessor need not parse to
`(zeroValue, false)`. -/
theorem c7_enum_inverse_counterexample :
    ParseEnumString useTypeEnum (XMLString useTypeEnum "UseType_USE_TYPE_STREAM") ≠
      (some "UseType_USE_TYPE_STREAM", true) ∧
    ((∀ c ∈ useTypeEnum.constants, XMLString useTypeEnum c ≠ "male") ∧
      (∀ c ∈ genderEnum.constants, XMLString genderEnum c ≠ "male") ∧
      ParseEnumString genderEnum "male" ≠ (none, false)) := by
  decide

/-- `find?` returns the unique element satisfying the predicate. -/
theorem find?_eq_some_of_unique {α : Type} (p : α → Bool) (l : List α) (x : α)
    (hx : x ∈ l) (hpx : p x = true) (huniq : ∀ y ∈ l, p y = true → y = x) :
    l.find? p = some x := by
  induction l with
  | nil => simp at hx
  | cons a rest ih =>
    by_cases hpa : p a = true
    · rw [List.find?_cons_of_pos _ hpa, huniq a (by simp) hpa]
    · rw [List.find?_cons_of_neg _ (by simp [hpa])]
      rcases List.mem_cons.mp hx with h | h
      · exact absurd (h ▸ hpx) hpa
      · exact ih h (fun y hy => huniq y (List.mem_cons_of_mem _ hy))

/-- C7 (amended): for every constant `c` for which the generator emits a case
arm (its name contains the uppercased enum name plus underscore with a
non-empty, non-`UNSPECIFIED` remainder `ap`), whose wire string is fully
uppercase and claimed by no other constant, `Parse(Accessor(c)) = (c, true)`;
and any input whose **uppercasing** equals no generated wire string parses to
the failure value `(zeroValue, false)`. -/
theorem c7_enum_inverse_amended (e : EnumInfo) (c ap s : String)
    (hc : c ∈ e.constants)
    (hcase : enumCaseOf e.name c = some ap)
    (hupper : goToUpper ap = ap)
    (hinj : ∀ c' ∈ e.constants, enumCaseOf e.name c' = some ap → c' = c)
    (hs : ∀ kv ∈ enumCases e, kv.2 ≠ goToUpper s) :
    ParseEnumString e (XMLString e c) = (some c, true) ∧
    ParseEnumString e s = (none, false) := by
  have hmem : (c, ap) ∈ enumCases e := by
    unfold enumCases
    rw [List.mem_filterMap]
    exact ⟨c, hc, by rw [hcase]; rfl⟩
  have helts : ∀ y ∈ enumCases e, y.1 ∈ e.constants ∧ enumCaseOf e.name y.1 = some y.2 := by
    intro y hy
    unfold enumCases at hy
    rw [List.mem_filterMap] at hy
    obtain ⟨k, hk, hky⟩ := hy
    cases hck : enumCaseOf e.name k with
    | none => rw [hck] at hky; simp at hky
    | some apk =>
      rw [hck] at hky
      simp only [Option.map_some'] at hky
      cases hky
      exact ⟨hk, hck⟩
  constructor
  · have hxml : XMLString e c = ap := by
      unfold XMLString
      rw [find?_eq_some_of_unique (fun kv => kv.1 == c) (enumCases e) (c, ap) hmem
        (by simp)
        (fun y hy hpy => by
          obtain ⟨hyc, hycase⟩ := helts y hy
          simp only [beq_iff_eq] at hpy
          have : enumCaseOf e.name c = some y.2 := by rw [← hpy]; exact hycase
          rw [hcase] at this
          cases this
          exact Prod.ext hpy rfl)]
    rw [hxml]
    unfold ParseEnumString
    rw [find?_eq_some_of_unique (fun kv => kv.2 == goToUpper ap) (enumCases e) (c, ap) hmem
      (by simp [hupper])
      (fun y hy hpy => by
        obtain ⟨hyc, hycase⟩ := helts y hy
        simp only [hupper, beq_iff_eq] at hpy
        have hy1 : y.1 = c := hinj y.1 hyc (hpy ▸ hycase)
        exact Prod.ext hy1 hpy)]
  · unfold ParseEnumString
    rw [List.find?_eq_none.mpr (fun kv hkv => by simp [hs kv hkv])]

/-- Witness for the amended C7 at the single-word enum `genderEnum`. -/
theorem c7_enum_inverse_amended_witness :
    ("Gender_GENDER_MALE" ∈ genderEnum.constants ∧
      enumCaseOf genderEnum.name "Gender_GENDER_MALE" = some "MALE" ∧
      goToUpper "MALE" = "MALE") ∧
    ParseEnumString genderEnum (XMLString genderEnum "Gender_GENDER_MALE") =
      (some "Gender_GENDER_MALE", true) ∧
    ParseEnumString genderEnum "bogus" = (none, false) := by
  refine ⟨⟨by decide, by decide, by decide⟩, ?_⟩
  exact c7_enum_inverse_amended genderEnum "Gender_GENDER_MALE" "MALE" "bogus"
    (by decide) (by decide) (by decide) (by decide) (by decide)

/-! ## The Round-Trip Oracle (`testutil/xml.go`)

An `etree` element is a tag, an attribute list (as `(attr.Key, attr.Value)`
pairs — `CompareDOMTrees` only ever reads those two fields), the element
text, and the ordered child elements.  The Go code collects attributes into
maps keyed by `attr.Key` before comparing; XML well-formedness makes those
keys unique per element, so iterating the attribute list coincides with
iterating the map. -/

inductive XElem where
  | mk (tag : String) (attrs : List (String × String)) (text : String)
      (children : List XElem) : XElem

/-- `Element.Tag`. -/
def XElem.tag : XElem → String
  | .mk t _ _ _ => t

/-- The element's attributes, as `(Key, Value)` pairs. -/
def XElem.attrs : XElem → List (String × String)
  | .mk _ a _ _ => a

/-- `Element.Text()`. -/
def XElem.text : XElem → String
  | .mk _ _ s _ => s

/-- `Element.ChildElements()`. -/
def XElem.children : XElem → List XElem
  | .mk _ _ _ c => c

/-- Go map read `m[k]` on the association-list model. -/
def goMapGet {α : Type} (m : List (String × α)) (k : String) : Option α :=
  match m with
  | [] => none
  | (k', v) :: rest => if k' = k then some v else goMapGet rest k

/-- `DOMComparison` of `testutil/xml.go`. -/
structure DOMComparison where
  elementsOriginal : Nat
  elementsMarshaled : Nat
  attributesOriginal : Nat
  attributesMarshaled : Nat
  missingElements : List String
  missingAttributes : List String
  valueMismatches : List String
  extraElements : List String
  marshaledParseable : Bool
  success : Bool
deriving DecidableEq

/-- `normalizeValue`: trim space, normalize line endings, collapse runs of
white space to single spaces. -/
def normalizeValue (s : String) : String :=
  let s1 := goTrimSpace s
  let s2 := String.mk (goReplaceCRLF s1.data)
  goJoinSpace (goFields s2)

/-- `fmt.Sprintf("%s@%s", currentPath, key)`. -/
def fmtMissingAttr (path key : String) : String :=
  path ++ "@" ++ key

/-- `fmt.Sprintf("%s@%s: '%s' != '%s'", currentPath, key, origValue,
marshaledValue)`. -/
def fmtAttrMismatch (path key ov mv : String) : String :=
  path ++ "@" ++ key ++ ": \x27" ++ ov ++ "\x27 != \x27" ++ mv ++ "\x27"

/-- `fmt.Sprintf("%s: '%s' != '%s'", currentPath, origText, marshaledText)`. -/
def fmtTextMismatch (path ot mt : String) : String :=
  path ++ ": \x27" ++ ot ++ "\x27 != \x27" ++ mt ++ "\x27"

/-- One iteration of the `for key, origValue := range origAttrs` loop of
`CompareDOMTrees`: `xmlns*` keys are skipped, absent keys are recorded as
missing, keys present on both sides are a mismatch iff the normalized values
differ. -/
def compareAttrsStep (path : String) (marAttrs : List (String × String))
    (c : DOMComparison) (kv : String × String) : DOMComparison :=
  if goHasPfx kv.1 "xmlns" then c
  else
    match goMapGet marAttrs kv.1 with
    | none =>
      { c with missingAttributes := c.missingAttributes ++ [fmtMissingAttr path kv.1] }
    | some mv =>
      if normalizeValue kv.2 ≠ normalizeValue mv then
        { c with valueMismatches :=
            c.valueMismatches ++ [fmtAttrMismatch path kv.1 kv.2 mv] }
      else c

/-- The attribute section of `CompareDOMTrees`: count both attribute lists
(while building the maps), then run the comparison loop over the original's
attributes. -/
def compareAttrsPhase (path : String) (origAttrs marAttrs : List (String × String))
    (comp : DOMComparison) : DOMComparison :=
  origAttrs.foldl (compareAttrsStep path marAttrs)
    { comp with
        attributesOriginal := comp.attributesOriginal + origAttrs.length,
        attributesMarshaled := comp.attributesMarshaled + marAttrs.length }

/-- The text section of `CompareDOMTrees`: leaf text is compared (normalized)
only when both sides have no child elements and the original's normalized
text is non-empty. -/
def compareTextPhase (path : String) (o m : XElem) (comp : DOMComparison) : DOMComparison :=
  if o.children.isEmpty && m.children.isEmpty then
    if normalizeValue o.text ≠ "" ∧ normalizeValue o.text ≠ normalizeValue m.text then
      { comp with valueMismatches :=
          comp.valueMismatches ++
            [fmtTextMismatch path (normalizeValue o.text) (normalizeValue m.text)] }
    else comp
  else comp

/-- First-occurrence deduplication, the fixed iteration order chosen for the
`allTags` map of `CompareDOMTrees` (Go's map order is unspecified). -/
def dedupKeepFirst (seen : List String) : List String → List String
  | [] => []
  | t :: rest =>
    if seen.contains t then dedupKeepFirst seen rest
    else t :: dedupKeepFirst (t :: seen) rest

/-- The `allTags` set: tags of either side's children, each once. -/
def tagsIn (xs ys : List XElem) : List String :=
  dedupKeepFirst [] (xs.map XElem.tag ++ ys.map XElem.tag)

/-- The recursive work items of `CompareDOMTrees`: for every tag, the
same-tag children of both sides paired positionally up to the longer length
(`groupElementsByTag` keeps document order, so it is `filter` by tag), each
with the child path (`currentPath`, with a `[i+1]` suffix for repeats). -/
def childTriples (currentPath : String) (xs ys : List XElem) :
    List (Option XElem × Option XElem × String) :=
  ((tagsIn xs ys).map (fun tg =>
    let ol := xs.filter (fun e => e.tag == tg)
    let ml := ys.filter (fun e => e.tag == tg)
    (List.range (Max.max ol.length ml.length)).filterMap (fun i =>
      if ol[i]?.isSome || ml[i]?.isSome then
        some (ol[i]?, ml[i]?,
          if i = 0 then currentPath
          else currentPath ++ "[" ++ toString (i + 1) ++ "]")
      else none))).flatten

/-- Every work item's sides come from the respective children lists. -/
theorem childTriples_mem (currentPath : String) (xs ys : List XElem)
    (t : Option XElem × Option XElem × String)
    (ht : t ∈ childTriples currentPath xs ys) :
    (t.1 = none ∨ ∃ x ∈ xs, t.1 = some x) ∧
    (t.2.1 = none ∨ ∃ y ∈ ys, t.2.1 = some y) := by
  unfold childTriples at ht
  rw [List.mem_flatten] at ht
  obtain ⟨l, hl, htl⟩ := ht
  rw [List.mem_map] at hl
  obtain ⟨tg, _, rfl⟩ := hl
  rw [List.mem_filterMap] at htl
  obtain ⟨i, _, hfi⟩ := htl
  split at hfi
  · cases hfi
    constructor
    · cases ho : (xs.filter (fun e => e.tag == tg))[i]? with
      | none => exact Or.inl (by simp [ho])
      | some x =>
        refine Or.inr ⟨x, ?_, by simp [ho]⟩
        exact List.mem_of_mem_filter (List.getElem?_mem ho)
    · cases hm : (ys.filter (fun e => e.tag == tg))[i]? with
      | none => exact Or.inl (by simp [hm])
      | some y =>
        refine Or.inr ⟨y, ?_, by simp [hm]⟩
        exact List.mem_of_mem_filter (List.getElem?_mem hm)
  · cases hfi

/-- Children are smaller than their parent element. -/
theorem sizeOf_lt_of_mem_children (x e : XElem) (h : x ∈ e.children) :
    sizeOf x < sizeOf e := by
  cases e with
  | mk t a s c =>
    simp only [XElem.children] at h
    have := List.sizeOf_lt_of_mem h
    simp only [XElem.mk.sizeOf_spec]
    omega

/-- Termination measure: every work item of a `some`/`some` node is strictly
smaller than the node pair. -/
theorem childTriples_sizeOf_lt (currentPath : String) (oe me : XElem)
    (t : Option XElem × Option XElem × String)
    (ht : t ∈ childTriples currentPath oe.children me.children) :
    sizeOf t.1 + sizeOf t.2.1 < sizeOf (some oe) + sizeOf (some me) := by
  obtain ⟨h1, h2⟩ := childTriples_mem currentPath oe.children me.children t ht
  have hoe : (0 : Nat) < sizeOf oe := by
    cases oe with
    | mk tg a s c => simp only [XElem.mk.sizeOf_spec]; omega
  have hme : (0 : Nat) < sizeOf me := by
    cases me with
    | mk tg a s c => simp only [XElem.mk.sizeOf_spec]; omega
  have hsome : ∀ z : XElem, sizeOf (some z) = 1 + sizeOf z := by
    intro z; simp
  have hnone : sizeOf (none : Option XElem) = 1 := by simp
  rcases h1 with h1 | ⟨x, hx, h1⟩ <;> rcases h2 with h2 | ⟨y, hy, h2⟩ <;>
    rw [h1, h2] <;> simp only [hnone, hsome]
  · omega
  · have := sizeOf_lt_of_mem_children y me hy
    omega
  · have := sizeOf_lt_of_mem_children x oe hx
    omega
  · have hax := sizeOf_lt_of_mem_children x oe hx
    have hay := sizeOf_lt_of_mem_children y me hy
    omega

/-- `CompareDOMTrees`: the recursive lock-step walk of the two trees. -/
def CompareDOMTrees (o m : Option XElem) (path : String) (comp : DOMComparison) :
    DOMComparison :=
  match o, m with
  | none, none => comp
  | none, some me =>
    { comp with extraElements := comp.extraElements ++ [path ++ "/" ++ me.tag] }
  | some oe, none =>
    { comp with missingElements := comp.missingElements ++ [path ++ "/" ++ oe.tag] }
  | some oe, some me =>
    let currentPath := path ++ "/" ++ oe.tag
    let comp1 := { comp with
      elementsOriginal := comp.elementsOriginal + 1,
      elementsMarshaled := comp.elementsMarshaled + 1 }
    let comp2 := compareAttrsPhase currentPath oe.attrs me.attrs comp1
    let comp3 := compareTextPhase currentPath oe me comp2
    (childTriples currentPath oe.children me.children).attach.foldl
      (fun c t => CompareDOMTrees t.1.1 t.1.2.1 t.1.2.2 c) comp3
termination_by sizeOf o + sizeOf m
decreasing_by
  exact childTriples_sizeOf_lt currentPath oe me t.1 t.2

/-- The frame `CompareDOMTrees` respects: `Success` and `MarshaledParseable`
are untouched, and the two element counters advance in lock step. -/
def FrameRel (c c' : DOMComparison) : Prop :=
  c'.success = c.success ∧ c'.marshaledParseable = c.marshaledParseable ∧
  c'.elementsOriginal + c.elementsMarshaled = c'.elementsMarshaled + c.elementsOriginal

/-- `FrameRel` is reflexive. -/
theorem frameRel_refl (c : DOMComparison) : FrameRel c c :=
  ⟨rfl, rfl, Nat.add_comm _ _⟩

/-- `FrameRel` is transitive. -/
theorem frameRel_trans {a b c : DOMComparison} (h1 : FrameRel a b) (h2 : FrameRel b c) :
    FrameRel a c := by
  unfold FrameRel at h1 h2 ⊢
  constructor
  · rw [h2.1, h1.1]
  constructor
  · rw [h2.2.1, h1.2.1]
  · omega

/-- One attribute-comparison step touches only the attribute lists. -/
theorem compareAttrsStep_frame (path : String) (marAttrs : List (String × String))
    (c : DOMComparison) (kv : String × String) :
    (compareAttrsStep path marAttrs c kv).success = c.success ∧
    (compareAttrsStep path marAttrs c kv).marshaledParseable = c.marshaledParseable ∧
    (compareAttrsStep path marAttrs c kv).elementsOriginal = c.elementsOriginal ∧
    (compareAttrsStep path marAttrs c kv).elementsMarshaled = c.elementsMarshaled := by
  unfold compareAttrsStep
  split
  · exact ⟨rfl, rfl, rfl, rfl⟩
  · split
    · exact ⟨rfl, rfl, rfl, rfl⟩
    · split
      · exact ⟨rfl, rfl, rfl, rfl⟩
      · exact ⟨rfl, rfl, rfl, rfl⟩

/-- The attribute phase touches neither `Success` / `MarshaledParseable` nor
the element counters. -/
theorem compareAttrsPhase_frame (path : String) (origAttrs marAttrs : List (String × String))
    (comp : DOMComparison) :
    (compareAttrsPhase path origAttrs marAttrs comp).success = comp.success ∧
    (compareAttrsPhase path origAttrs marAttrs comp).marshaledParseable =
      comp.marshaledParseable ∧
    (compareAttrsPhase path origAttrs marAttrs comp).elementsOriginal =
      comp.elementsOriginal ∧
    (compareAttrsPhase path origAttrs marAttrs comp).elementsMarshaled =
      comp.elementsMarshaled := by
  unfold compareAttrsPhase
  generalize hstart : ({ comp with
      attributesOriginal := comp.attributesOriginal + origAttrs.length,
      attributesMarshaled := comp.attributesMarshaled + marAttrs.length } :
      DOMComparison) = start
  have hs : start.success = comp.success ∧ start.marshaledParseable = comp.marshaledParseable ∧
      start.elementsOriginal = comp.elementsOriginal ∧
      start.elementsMarshaled = comp.elementsMarshaled := by
    rw [← hstart]
    exact ⟨rfl, rfl, rfl, rfl⟩
  clear hstart
  induction origAttrs generalizing start with
  | nil => exact hs
  | cons kv rest ih =>
    rw [List.foldl_cons]
    apply ih
    have hstep := compareAttrsStep_frame path marAttrs start kv
    refine ⟨?_, ?_, ?_, ?_⟩
    · rw [hstep.1, hs.1]
    · rw [hstep.2.1, hs.2.1]
    · rw [hstep.2.2.1, hs.2.2.1]
    · rw [hstep.2.2.2, hs.2.2.2]

/-- The text phase also leaves the frame untouched. -/
theorem compareTextPhase_frame (path : String) (o m : XElem) (comp : DOMComparison) :
    (compareTextPhase path o m comp).success = comp.success ∧
    (compareTextPhase path o m comp).marshaledParseable = comp.marshaledParseable ∧
    (compareTextPhase path o m comp).elementsOriginal = comp.elementsOriginal ∧
    (compareTextPhase path o m comp).elementsMarshaled = comp.elementsMarshaled := by
  unfold compareTextPhase
  split
  · split
    · exact ⟨rfl, rfl, rfl, rfl⟩
    · exact ⟨rfl, rfl, rfl, rfl⟩
  · exact ⟨rfl, rfl, rfl, rfl⟩

/-- Folding the recursive calls over attached work items preserves `FrameRel`
as soon as each call does. -/
theorem frame_foldl_sub (triples : List (Option XElem × Option XElem × String))
    (h : ∀ t ∈ triples, ∀ c : DOMComparison, FrameRel c (CompareDOMTrees t.1 t.2.1 t.2.2 c)) :
    ∀ (l : List {t // t ∈ triples}) (comp : DOMComparison),
      FrameRel comp
        (l.foldl (fun c t => CompareDOMTrees t.1.1 t.1.2.1 t.1.2.2 c) comp) := by
  intro l
  induction l with
  | nil => exact fun comp => frameRel_refl comp
  | cons x rest ih =>
    intro comp
    rw [List.foldl_cons]
    exact frameRel_trans (h x.1 x.2 comp) (ih _)

/-- `CompareDOMTrees` never writes `Success` or `MarshaledParseable`, and
advances the two element counters by the same amount (strong induction on the
combined tree size). -/
theorem compareDOMTrees_frame_aux :
    ∀ (n : Nat) (o m : Option XElem) (path : String) (comp : DOMComparison),
      sizeOf o + sizeOf m ≤ n → FrameRel comp (CompareDOMTrees o m path comp) := by
  intro n
  induction n with
  | zero =>
    intro o m path comp h
    exfalso
    cases o <;> cases m <;> simp at h
  | succ k ih =>
    intro o m path comp hle
    cases o with
    | none =>
      cases m with
      | none =>
        unfold CompareDOMTrees
        exact frameRel_refl comp
      | some me =>
        unfold CompareDOMTrees
        unfold FrameRel
        exact ⟨rfl, rfl, Nat.add_comm _ _⟩
    | some oe =>
      cases m with
      | none =>
        unfold CompareDOMTrees
        unfold FrameRel
        exact ⟨rfl, rfl, Nat.add_comm _ _⟩
      | some me =>
        rw [CompareDOMTrees]
        set currentPath := path ++ "/" ++ oe.tag with hcp
        set comp1 : DOMComparison := { comp with
          elementsOriginal := comp.elementsOriginal + 1,
          elementsMarshaled := comp.elementsMarshaled + 1 } with hc1
        set comp2 := compareAttrsPhase currentPath oe.attrs me.attrs comp1 with hc2
        set comp3 := compareTextPhase currentPath oe me comp2 with hc3
        have h1 : FrameRel comp comp1 := by
          rw [hc1]
          unfold FrameRel
          refine ⟨rfl, rfl, ?_⟩
          simp only []
          omega
        have h2 : FrameRel comp1 comp2 := by
          have := compareAttrsPhase_frame currentPath oe.attrs me.attrs comp1
          unfold FrameRel
          rw [hc2]
          exact ⟨this.1, this.2.1, by omega⟩
        have h3 : FrameRel comp2 comp3 := by
          have := compareTextPhase_frame currentPath oe me comp2
          unfold FrameRel
          rw [hc3]
          exact ⟨this.1, this.2.1, by omega⟩
        refine frameRel_trans (frameRel_trans (frameRel_trans h1 h2) h3) ?_
        apply frame_foldl_sub
        intro t ht c
        apply ih
        have hlt := childTriples_sizeOf_lt currentPath oe me t ht
        have hs1 : sizeOf (some oe) + sizeOf (some me) ≤ k + 1 := hle
        omega

/-- C9: the per-side element counters of the report can never diverge —
`CompareDOMTrees` increments them only together (and only for elements
present on both sides), so counters that start equal end equal. -/
theorem c9_element_counters_stay_equal (o m : Option XElem) (path : String)
    (comp : DOMComparison) (h : comp.elementsOriginal = comp.elementsMarshaled) :
    (CompareDOMTrees o m path comp).elementsOriginal =
      (CompareDOMTrees o m path comp).elementsMarshaled := by
  have hf := compareDOMTrees_frame_aux (sizeOf o + sizeOf m) o m path comp (le_refl _)
  unfold FrameRel at hf
  omega

/-- Witness for C9 on a two-level concrete tree pair with a missing child. -/
theorem c9_element_counters_stay_equal_witness :
    (DOMComparison.mk 0 0 0 0 [] [] [] [] true true).elementsOriginal =
      (DOMComparison.mk 0 0 0 0 [] [] [] [] true true).elementsMarshaled ∧
    (CompareDOMTrees
        (some (XElem.mk "NewReleaseMessage" [] ""
          [XElem.mk "MessageHeader" [] "hdr" [], XElem.mk "ReleaseList" [] "" []]))
        (some (XElem.mk "NewReleaseMessage" [] ""
          [XElem.mk "MessageHeader" [] "hdr" []]))
        "" (DOMComparison.mk 0 0 0 0 [] [] [] [] true true)).elementsOriginal =
      (CompareDOMTrees
        (some (XElem.mk "NewReleaseMessage" [] ""
          [XElem.mk "MessageHeader" [] "hdr" [], XElem.mk "ReleaseList" [] "" []]))
        (some (XElem.mk "NewReleaseMessage" [] ""
          [XElem.mk "MessageHeader" [] "hdr" []]))
        "" (DOMComparison.mk 0 0 0 0 [] [] [] [] true true)).elementsMarshaled :=
  ⟨rfl, c9_element_counters_stay_equal _ _ _ _ rfl⟩

/-- The freshly initialized report of the round-trip validators. -/
def initialComparison : DOMComparison :=
  ⟨0, 0, 0, 0, [], [], [], [], true, true⟩

/-- `PerformRoundTripValidationFromData`: parse the original, round-trip it
through the validator, parse the result, diff the two trees, re-run the
validator on the round-tripped bytes, and derive the final `Success` flag.
`parseDoc` stands for `etree` parsing (`none` = not parseable) and
`validator` for the decode→encode pipeline (`none` = error). -/
def PerformRoundTripValidationFromData {β : Type} (parseDoc : β → Option XElem)
    (validator : β → Option β) (originalXML : β) : DOMComparison :=
  match parseDoc originalXML with
  | none => { initialComparison with success := false }
  | some origRoot =>
    match validator originalXML with
    | none => { initialComparison with success := false }
    | some marshaledXML =>
      match parseDoc marshaledXML with
      | none => { initialComparison with success := false, marshaledParseable := false }
      | some marRoot =>
        let c1 := CompareDOMTrees (some origRoot) (some marRoot) "" initialComparison
        let c2 := match validator marshaledXML with
          | none => { c1 with marshaledParseable := false }
          | some _ => c1
        if c2.missingElements.length > 0 ∨ c2.missingAttributes.length > 0 ∨
            c2.valueMismatches.length > 0 ∨ c2.marshaledParseable = false then
          { c2 with success := false }
        else c2

/-- C3: for every run that reaches the tree comparison (original parseable
and round-trippable, output parseable), the final `Success` flag is `true`
iff there are no missing elements, no missing attributes, no value
mismatches, and the round-tripped bytes re-validate; `ExtraElements` plays no
role, so a run whose only discrepancies are extra elements succeeds. -/
theorem c3_oracle_success_iff {β : Type} (parseDoc : β → Option XElem)
    (validator : β → Option β) (originalXML marshaledXML : β) (origRoot marRoot : XElem)
    (hp : parseDoc originalXML = some origRoot)
    (hv : validator originalXML = some marshaledXML)
    (hpm : parseDoc marshaledXML = some marRoot) :
    (PerformRoundTripValidationFromData parseDoc validator originalXML).success = true ↔
      ((PerformRoundTripValidationFromData parseDoc validator originalXML).missingElements
          = [] ∧
        (PerformRoundTripValidationFromData parseDoc validator originalXML).missingAttributes
          = [] ∧
        (PerformRoundTripValidationFromData parseDoc validator originalXML).valueMismatches
          = [] ∧
        (PerformRoundTripValidationFromData parseDoc validator originalXML).marshaledParseable
          = true) := by
  have hframe := compareDOMTrees_frame_aux
    (sizeOf (some origRoot) + sizeOf (some marRoot))
    (some origRoot) (some marRoot) "" initialComparison (le_refl _)
  unfold FrameRel at hframe
  unfold PerformRoundTripValidationFromData
  simp only [hp, hv, hpm]
  set c1 := CompareDOMTrees (some origRoot) (some marRoot) "" initialComparison with hc1
  have hsucc : c1.success = true := by rw [hframe.1]; rfl
  have hpar : c1.marshaledParseable = true := by rw [hframe.2.1]; rfl
  cases hre : validator marshaledXML with
  | none =>
    simp [hre]
  | some z =>
    simp only [hre]
    by_cases hcond : c1.missingElements.length > 0 ∨ c1.missingAttributes.length > 0 ∨
        c1.valueMismatches.length > 0 ∨ c1.marshaledParseable = false
    · rw [if_pos hcond]
      simp only [show ({ c1 with success := false } : DOMComparison).success = false from rfl]
      constructor
      · intro h
        exact absurd h (by simp)
      · intro h
        exfalso
        rcases hcond with h1 | h1 | h1 | h1
        · rw [show ({ c1 with success := false } : DOMComparison).missingElements =
            c1.missingElements from rfl, h.1] at *
          simp_all
        · rw [show ({ c1 with success := false } : DOMComparison).missingAttributes =
            c1.missingAttributes from rfl] at h
          rw [h.2.1] at h1
          simp at h1
        · rw [show ({ c1 with success := false } : DOMComparison).valueMismatches =
            c1.valueMismatches from rfl] at h
          rw [h.2.2.1] at h1
          simp at h1
        · rw [hpar] at h1
          simp at h1
    · rw [if_neg hcond]
      push_neg at hcond
      obtain ⟨h1, h2, h3, h4⟩ := hcond
      rw [hsucc]
      have e1 : c1.missingElements = [] := by
        rw [← List.length_eq_zero]
        omega
      have e2 : c1.missingAttributes = [] := by
        rw [← List.length_eq_zero]
        omega
      have e3 : c1.valueMismatches = [] := by
        rw [← List.length_eq_zero]
        omega
      simp [e1, e2, e3, hpar]

/-- A concrete parser for the C3 witness: every byte string parses to a fixed
single-element tree. -/
def witParse : Nat → Option XElem :=
  fun _ => some (XElem.mk "NewReleaseMessage" [] "" [])

/-- A concrete validator for the C3 witness: the identity round trip. -/
def witValidator : Nat → Option Nat :=
  fun n => some n

/-- Witness for C3 at a concrete parser/validator pair and input. -/
theorem c3_oracle_success_iff_witness :
    (witParse 0 = some (XElem.mk "NewReleaseMessage" [] "" []) ∧
      witValidator 0 = some 0) ∧
    ((PerformRoundTripValidationFromData witParse witValidator 0).success = true ↔
      ((PerformRoundTripValidationFromData witParse witValidator 0).missingElements = [] ∧
        (PerformRoundTripValidationFromData witParse witValidator 0).missingAttributes = [] ∧
        (PerformRoundTripValidationFromData witParse witValidator 0).valueMismatches = [] ∧
        (PerformRoundTripValidationFromData witParse witValidator 0).marshaledParseable
          = true)) :=
  ⟨⟨rfl, rfl⟩,
    c3_oracle_success_iff witParse witValidator 0 0
      (XElem.mk "NewReleaseMessage" [] "" []) (XElem.mk "NewReleaseMessage" [] "" [])
      rfl rfl rfl⟩

/-! ## C8: the attribute comparison, characterized -/

/-- The missing-attribute records of one element, as the specification words
them: original attributes whose key does not begin with `xmlns` and is absent
on the round-tripped side. -/
def specMissingAttrs (path : String) (orig mar : List (String × String)) : List String :=
  (orig.filter (fun kv => !goHasPfx kv.1 "xmlns" && (goMapGet mar kv.1).isNone)).map
    (fun kv => fmtMissingAttr path kv.1)

/-- The value-mismatch records of one element, as the specification words
them: keys present on both sides (and not `xmlns*`-prefixed) whose values
differ after normalization; values equal after normalization are never
recorded. -/
def specAttrMismatches (path : String) (orig mar : List (String × String)) : List String :=
  orig.filterMap (fun kv =>
    if goHasPfx kv.1 "xmlns" then none
    else
      match goMapGet mar kv.1 with
      | none => none
      | some mv =>
        if normalizeValue kv.2 ≠ normalizeValue mv then
          some (fmtAttrMismatch path kv.1 kv.2 mv)
        else none)

/-- The comparison loop, characterized against the specification functions. -/
theorem compareAttrs_foldl_spec (path : String) (mar : List (String × String)) :
    ∀ (orig : List (String × String)) (comp : DOMComparison),
      ((orig.foldl (compareAttrsStep path mar) comp).missingAttributes =
        comp.missingAttributes ++ specMissingAttrs path orig mar) ∧
      ((orig.foldl (compareAttrsStep path mar) comp).valueMismatches =
        comp.valueMismatches ++ specAttrMismatches path orig mar) := by
  intro orig
  induction orig with
  | nil =>
    intro comp
    unfold specMissingAttrs specAttrMismatches
    simp
  | cons kv rest ih =>
    intro comp
    rw [List.foldl_cons]
    unfold specMissingAttrs specAttrMismatches
    rw [List.filter_cons, List.filterMap_cons]
    unfold specMissingAttrs specAttrMismatches at ih
    by_cases h1 : goHasPfx kv.1 "xmlns" = true
    · have hstep : compareAttrsStep path mar comp kv = comp := by
        unfold compareAttrsStep
        rw [if_pos h1]
      rw [hstep]
      obtain ⟨ihm, ihv⟩ := ih comp
      rw [ihm, ihv]
      simp [h1]
    · cases hg : goMapGet mar kv.1 with
      | none =>
        have hstep : compareAttrsStep path mar comp kv =
            { comp with missingAttributes :=
                comp.missingAttributes ++ [fmtMissingAttr path kv.1] } := by
          unfold compareAttrsStep
          rw [if_neg h1, hg]
        rw [hstep]
        obtain ⟨ihm, ihv⟩ := ih
          { comp with missingAttributes :=
              comp.missingAttributes ++ [fmtMissingAttr path kv.1] }
        rw [ihm, ihv]
        simp [h1, hg]
      | some mv =>
        by_cases hne : normalizeValue kv.2 ≠ normalizeValue mv
        · have hstep : compareAttrsStep path mar comp kv =
              { comp with valueMismatches :=
                  comp.valueMismatches ++ [fmtAttrMismatch path kv.1 kv.2 mv] } := by
            unfold compareAttrsStep
            rw [if_neg h1]
            simp only [hg]
            rw [if_pos hne]
          rw [hstep]
          obtain ⟨ihm, ihv⟩ := ih
            { comp with valueMismatches :=
                comp.valueMismatches ++ [fmtAttrMismatch path kv.1 kv.2 mv] }
          rw [ihm, ihv]
          simp [h1, hg, hne]
        · have hstep : compareAttrsStep path mar comp kv = comp := by
            unfold compareAttrsStep
            rw [if_neg h1]
            simp only [hg]
            rw [if_neg hne]
          rw [hstep]
          obtain ⟨ihm, ihv⟩ := ih comp
          rw [ihm, ihv]
          simp [h1, hg, hne]

/-- C8: in the per-element attribute comparison, `xmlns*`-keyed original
attributes contribute nothing; every other original key absent on the
round-tripped side is recorded as missing; keys present on both sides are
recorded as a value mismatch exactly when the values differ after
normalization (trim, collapse internal whitespace, normalize line endings). -/
theorem c8_attribute_comparison_spec (path : String)
    (orig mar : List (String × String)) (comp : DOMComparison) :
    ((compareAttrsPhase path orig mar comp).missingAttributes =
      comp.missingAttributes ++ specMissingAttrs path orig mar) ∧
    ((compareAttrsPhase path orig mar comp).valueMismatches =
      comp.valueMismatches ++ specAttrMismatches path orig mar) := by
  unfold compareAttrsPhase
  exact compareAttrs_foldl_spec path mar orig _
